import Mathlib

/-!
Verification of the travel-tracker repository: a shallow embedding of the
client-side visit store and image pipeline (src/App.tsx, src/types.ts) and of
the flag-download script (src/scripts/download-flags.mjs), together with
theorems settling the specification claims against the code.
-/

namespace Lerakaif

/-! ## VisitStore (src/App.tsx, src/types.ts)

The TypeScript interface CountryVisit declares visited : boolean,
date?: string, photos : string[], but at runtime a field of a record can be
absent (updateDate creates records carrying only a date), so every field is
modelled as an Option: none stands for a missing (undefined) field. -/

structure CountryVisit where
  visited : Option Bool
  date : Option String
  photos : Option (List String)
deriving DecidableEq

/-- Record denoted by spreading prev[code] when prev[code] is undefined:
the spread contributes no fields at all. -/
def emptyVisit : CountryVisit := ⟨none, none, none⟩

/-- Default record used by addPhoto and addPhotos when no record exists:
visited false, empty date, empty photos. -/
def defaultVisit : CountryVisit := ⟨some false, some "", some []⟩

/-- UserData: the snapshot type, a JS object keyed by country code. -/
abbrev UserData := String → Option CountryVisit

/-- toggleVisit from src/App.tsx: spread of the old record, with visited
overwritten by the JS negation of prev[code]?.visited (undefined is falsy) and
photos overwritten by prev[code]?.photos or the empty list. -/
def toggleVisit (prev : UserData) (code : String) : UserData := fun c =>
  if c = code then
    some { (prev code).getD emptyVisit with
           visited := some (!(((prev code).bind (fun r => r.visited)).getD false)),
           photos := some (((prev code).bind (fun r => r.photos)).getD []) }
  else prev c

/-- updateDate from src/App.tsx: spread of the old record (or of undefined)
with only the date field overwritten. -/
def updateDate (prev : UserData) (code : String) (date : String) : UserData := fun c =>
  if c = code then some { (prev code).getD emptyVisit with date := some date }
  else prev c

/-- addPhoto from src/App.tsx: the current record (or the default one when
absent) with the single photo appended to its photo list. -/
def addPhoto (prev : UserData) (code : String) (photoDataUrl : String) : UserData := fun c =>
  if c = code then
    let current := (prev code).getD defaultVisit
    some { current with photos := some ((current.photos).getD [] ++ [photoDataUrl]) }
  else prev c

/-- addPhotos from src/App.tsx: returns the snapshot untouched when the list is
empty, otherwise appends the whole list to the current photo list. -/
def addPhotos (prev : UserData) (code : String) (photoDataUrls : List String) : UserData :=
  if photoDataUrls.length = 0 then prev
  else fun c =>
    if c = code then
      let current := (prev code).getD defaultVisit
      some { current with photos := some ((current.photos).getD [] ++ photoDataUrls) }
    else prev c

/-- Array.prototype.splice(start, 1) on a list: JS clamps a negative start to
max (len + start) 0 and a non-negative start to min start len, then deletes at
most one element at that position. -/
def spliceRemoveOne (xs : List String) (start : Int) : List String :=
  let len : Int := xs.length
  let actual : Nat := if start < 0 then (len + start).toNat else (min start len).toNat
  xs.take actual ++ xs.drop (actual + 1)

/-- removePhoto from src/App.tsx: copies prev[code]?.photos (or []), splices
one element out at index, and stores the spliced copy back on the spread of
the old record. -/
def removePhoto (prev : UserData) (code : String) (index : Int) : UserData := fun c =>
  if c = code then
    some { (prev code).getD emptyVisit with
           photos := some (spliceRemoveOne (((prev code).bind (fun r => r.photos)).getD []) index) }
  else prev c

/-- The photo sequence of a code as the UI reads it:
userData[code]?.photos or the empty list. -/
def photosOf (s : UserData) (code : String) : List String :=
  ((s code).bind (fun r => r.photos)).getD []

/-! ## Theorems about the store operations -/

/-- C6: toggling visited twice yields, for the toggled code, a record whose
visited value is the original one (false when no record or no visited field
existed), whose date is the original date field, and whose photos are the
original photo sequence. -/
theorem toggleVisit_twice (prev : UserData) (code : String) :
    toggleVisit (toggleVisit prev code) code code =
      some { visited := some (((prev code).bind (fun r => r.visited)).getD false),
             date := ((prev code).getD emptyVisit).date,
             photos := some (((prev code).bind (fun r => r.photos)).getD []) } := by
  simp [toggleVisit]

/-- C9: adding a single photo is the same snapshot transformation as adding the
one-element list of that photo. -/
theorem addPhoto_eq_addPhotos (prev : UserData) (code : String) (p : String) :
    addPhoto prev code p = addPhotos prev code [p] := by
  funext c
  simp [addPhoto, addPhotos]

/-- C7: addPhotos with the empty list returns the snapshot unchanged; with a
non-empty list it appends the images, in order, to the end of the code's photo
sequence (on top of the default record when none existed) and leaves every
other code untouched. -/
theorem addPhotos_append (prev : UserData) (code : String) (imgs : List String) :
    (imgs = [] → addPhotos prev code imgs = prev)
    ∧ (imgs ≠ [] →
        addPhotos prev code imgs code =
          some { (prev code).getD defaultVisit with
                 photos := some ((((prev code).getD defaultVisit).photos).getD [] ++ imgs) }
        ∧ ∀ c, c ≠ code → addPhotos prev code imgs c = prev c) := by
  constructor
  · intro h
    subst h
    simp [addPhotos]
  · intro h
    have hlen : ¬ imgs.length = 0 := by simpa using h
    refine ⟨by simp [addPhotos, hlen], ?_⟩
    intro c hc
    simp [addPhotos, hlen, hc]

/-- Snapshot with no records. -/
def emptyData : UserData := fun _ => none

theorem addPhotos_append_witness :
    addPhotos emptyData "US" [] = emptyData
    ∧ addPhotos emptyData "US" ["p1", "p2"] "US" =
        some { visited := some false, date := some "", photos := some ["p1", "p2"] }
    ∧ addPhotos emptyData "US" ["p1", "p2"] "FR" = emptyData "FR" :=
  ⟨(addPhotos_append emptyData "US" []).1 rfl,
   ((addPhotos_append emptyData "US" ["p1", "p2"]).2 (by decide)).1,
   ((addPhotos_append emptyData "US" ["p1", "p2"]).2 (by decide)).2 "FR" (by decide)⟩

/-- C10: updateDate on a code with no record creates a record that carries only
the date: its visited and photos fields are absent, not false and the empty
list. -/
theorem updateDate_partial_record (prev : UserData) (code : String) (d : String)
    (h : prev code = none) :
    updateDate prev code d code = some { visited := none, date := some d, photos := none } := by
  simp [updateDate, h, emptyVisit]

theorem updateDate_partial_record_witness :
    updateDate emptyData "US" "2024-01-01" "US" =
      some { visited := none, date := some "2024-01-01", photos := none } :=
  updateDate_partial_record emptyData "US" "2024-01-01" rfl

/-- Snapshot holding one record for US with two photos. -/
def sampleData : UserData := fun c =>
  if c = "US" then some { visited := some true, date := some "2024-05-01", photos := some ["a", "b"] }
  else none

/-- C4 counterexample: a negative index is not an out-of-bounds no-op; splice
with start -1 deletes the last photo. -/
theorem removePhoto_negative_counterexample :
    photosOf sampleData "US" = ["a", "b"]
    ∧ photosOf (removePhoto sampleData "US" (-1)) "US" = ["a"] := by
  constructor <;> rfl

/-- Splice deletes nothing when the start index is at least the length, or the
list is empty. -/
theorem spliceRemoveOne_noop (xs : List String) (i : Int)
    (h : (xs.length : Int) ≤ i ∨ xs = []) : spliceRemoveOne xs i = xs := by
  rcases h with h | h
  · have hi : ¬ i < 0 := by
      have : (0 : Int) ≤ (xs.length : Int) := Int.ofNat_nonneg _
      omega
    have hmin : min i (xs.length : Int) = (xs.length : Int) := min_eq_right h
    simp only [spliceRemoveOne, if_neg hi, hmin, Int.toNat_ofNat]
    simp
  · subst h
    simp [spliceRemoveOne]

/-- C4 amended: removePhoto never changes any photo sequence when the index is
at least the sequence's length or the sequence is empty (and, being a total
function, it cannot throw); a negative index on a non-empty sequence instead
deletes the element at position max (length + index) 0. -/
theorem removePhoto_oob (prev : UserData) (code : String) (index : Int)
    (h : ((photosOf prev code).length : Int) ≤ index ∨ photosOf prev code = []) :
    ∀ c, photosOf (removePhoto prev code index) c = photosOf prev c := by
  intro c
  by_cases hc : c = code
  · subst hc
    have hs := spliceRemoveOne_noop (photosOf prev c) index h
    simp only [photosOf] at hs
    simp [removePhoto, photosOf, hs]
  · simp [removePhoto, photosOf, hc]

theorem removePhoto_oob_witness :
    photosOf (removePhoto sampleData "US" 5) "US" = photosOf sampleData "US" :=
  removePhoto_oob sampleData "US" 5 (Or.inl (by decide)) "US"

/-! ## ImageCompressor (compressImageToDataUrl in src/App.tsx)

Only the dimension computation is algorithmic; decoding, canvas rendering and
JPEG encoding are host primitives.  The arithmetic is modelled exactly over ℚ
(the source computes in JS doubles; the claims are about the formulas). -/

/-- JS Math.round on an exact rational: rounds half toward positive infinity. -/
def jsRound (q : ℚ) : ℤ := ⌊q + 1 / 2⌋

/-- Dimension computation of compressImageToDataUrl:
scale = min(1, maxSize / max(width, height));
targetW = max(1, round(width * scale)); targetH = max(1, round(height * scale)). -/
def compressTargetDims (width height maxSize : ℕ) : ℤ × ℤ :=
  let scale : ℚ := min 1 ((maxSize : ℚ) / ((max width height : ℕ) : ℚ))
  (max 1 (jsRound ((width : ℚ) * scale)), max 1 (jsRound ((height : ℚ) * scale)))

/-- One scaled axis stays within the budget: for 1 ≤ d ≤ M and 1 ≤ m,
max 1 (round (d * min 1 (m / M))) ≤ m. -/
theorem jsRound_scale_le (d M m : ℕ) (hd : 1 ≤ d) (hdM : d ≤ M) (hm : 1 ≤ m) :
    max 1 (jsRound ((d : ℚ) * min 1 ((m : ℚ) / (M : ℚ)))) ≤ (m : ℤ) := by
  have hM : (0 : ℚ) < (M : ℚ) := by
    have : (1 : ℕ) ≤ M := le_trans hd hdM
    exact_mod_cast Nat.lt_of_lt_of_le Nat.zero_lt_one this
  have hx : (d : ℚ) * min 1 ((m : ℚ) / (M : ℚ)) ≤ (m : ℚ) := by
    rcases le_total (1 : ℚ) ((m : ℚ) / (M : ℚ)) with hcase | hcase
    · rw [min_eq_left hcase, mul_one]
      have hMm : (M : ℚ) ≤ (m : ℚ) := by
        have := (one_le_div hM).mp hcase
        exact this
      have hdMq : (d : ℚ) ≤ (M : ℚ) := by exact_mod_cast hdM
      linarith
    · rw [min_eq_right hcase]
      have h0 : (0 : ℚ) ≤ (m : ℚ) / (M : ℚ) := by positivity
      have hdMq : (d : ℚ) ≤ (M : ℚ) := by exact_mod_cast hdM
      calc (d : ℚ) * ((m : ℚ) / (M : ℚ)) ≤ (M : ℚ) * ((m : ℚ) / (M : ℚ)) :=
            mul_le_mul_of_nonneg_right hdMq h0
        _ = (m : ℚ) := by field_simp
  have hr : jsRound ((d : ℚ) * min 1 ((m : ℚ) / (M : ℚ))) < (m : ℤ) + 1 := by
    rw [jsRound, Int.floor_lt]
    push_cast
    linarith
  have hr' : jsRound ((d : ℚ) * min 1 ((m : ℚ) / (M : ℚ))) ≤ (m : ℤ) :=
    Int.lt_add_one_iff.mp hr
  exact max_le (by exact_mod_cast hm) hr'

/-- C5: for width, height, maxDimension all at least 1, both target dimensions
are at least 1 pixel and neither exceeds maxDimension (so the longest output
dimension is at most maxDimension). -/
theorem compress_dims_bounded (w h m : ℕ) (hw : 1 ≤ w) (hh : 1 ≤ h) (hm : 1 ≤ m) :
    1 ≤ (compressTargetDims w h m).1 ∧ 1 ≤ (compressTargetDims w h m).2
    ∧ (compressTargetDims w h m).1 ≤ (m : ℤ) ∧ (compressTargetDims w h m).2 ≤ (m : ℤ) := by
  refine ⟨le_max_left _ _, le_max_left _ _, ?_, ?_⟩
  · exact jsRound_scale_le w (max w h) m hw (le_max_left w h) hm
  · exact jsRound_scale_le h (max w h) m hh (le_max_right w h) hm

theorem compress_dims_bounded_witness :
    1 ≤ (compressTargetDims 3000 2000 1600).1 ∧ 1 ≤ (compressTargetDims 3000 2000 1600).2
    ∧ (compressTargetDims 3000 2000 1600).1 ≤ (1600 : ℤ)
    ∧ (compressTargetDims 3000 2000 1600).2 ≤ (1600 : ℤ) :=
  compress_dims_bounded 3000 2000 1600 (by decide) (by decide) (by decide)

/-! ## PersistenceGateway: loading the stored snapshot

The userData initializer in src/App.tsx reads the stored text and evaluates
the JS expression: saved is truthy, then JSON.parse(saved), else the empty
object.  JSON.parse is the host JSON parser; it is embedded below as a
recursive-descent parser of the JSON grammar (values: null, booleans, numbers,
strings with escapes, arrays, objects), returning none exactly where
JSON.parse throws a SyntaxError. -/

inductive Json where
  | null : Json
  | bool (b : Bool) : Json
  | num (raw : String) : Json
  | str (s : String) : Json
  | arr (items : List Json) : Json
  | obj (fields : List (String × Json)) : Json

def isJsonWs (c : Char) : Bool := c = ' ' || c = '\t' || c = '\n' || c = '\r'

def skipWs (cs : List Char) : List Char := cs.dropWhile isJsonWs

/-- Value of one hexadecimal digit, by code point: 48-57 are the decimal
digits, 97-102 the lowercase and 65-70 the uppercase letters. -/
def hexVal (c : Char) : Option Nat :=
  let n := c.toNat
  if 48 ≤ n && n ≤ 57 then some (n - 48)
  else if 97 ≤ n && n ≤ 102 then some (n - 87)
  else if 65 ≤ n && n ≤ 70 then some (n - 55)
  else none

/-- Body of a JSON string after its opening quote, with escape sequences. -/
def parseStringBody : List Char → List Char → Option (String × List Char)
  | _, [] => none
  | acc, c :: cs =>
    if c = '"' then some (String.mk acc.reverse, cs)
    else if c = '\\' then
      match cs with
      | [] => none
      | e :: cs2 =>
        if e = '"' then parseStringBody ('"' :: acc) cs2
        else if e = '\\' then parseStringBody ('\\' :: acc) cs2
        else if e = '/' then parseStringBody ('/' :: acc) cs2
        else if e = 'n' then parseStringBody ('\n' :: acc) cs2
        else if e = 't' then parseStringBody ('\t' :: acc) cs2
        else if e = 'r' then parseStringBody ('\r' :: acc) cs2
        else if e = 'b' then parseStringBody (Char.ofNat 8 :: acc) cs2
        else if e = 'f' then parseStringBody (Char.ofNat 12 :: acc) cs2
        else if e = 'u' then
          match cs2 with
          | h1 :: h2 :: h3 :: h4 :: cs3 =>
            match hexVal h1, hexVal h2, hexVal h3, hexVal h4 with
            | some a, some b, some c3, some d =>
              parseStringBody (Char.ofNat (((a * 16 + b) * 16 + c3) * 16 + d) :: acc) cs3
            | _, _, _, _ => none
          | _ => none
        else none
    else parseStringBody (c :: acc) cs

def takeDigits (cs : List Char) : List Char × List Char := cs.span Char.isDigit

/-- Optional exponent part of a JSON number; the numeral is kept verbatim. -/
def parseExpPart (pre : List Char) (cs : List Char) : Option (String × List Char) :=
  match cs with
  | c :: rest =>
    if c = 'e' || c = 'E' then
      let sr : List Char × List Char :=
        match rest with
        | s :: rest2 => if s = '+' || s = '-' then ([s], rest2) else ([], rest)
        | [] => ([], [])
      let ep := takeDigits sr.2
      if ep.1 = [] then none
      else some (String.mk (pre ++ c :: sr.1 ++ ep.1), ep.2)
    else some (String.mk pre, cs)
  | [] => some (String.mk pre, [])

/-- A JSON number: optional minus, digits, optional fraction and exponent. -/
def parseNumberBody (cs : List Char) : Option (String × List Char) :=
  let sr : List Char × List Char :=
    match cs with
    | '-' :: rest => (['-'], rest)
    | _ => ([], cs)
  let ip := takeDigits sr.2
  if ip.1 = [] then none
  else
    match ip.2 with
    | '.' :: rest =>
      let fp := takeDigits rest
      if fp.1 = [] then none
      else parseExpPart (sr.1 ++ ip.1 ++ '.' :: fp.1) fp.2
    | other => parseExpPart (sr.1 ++ ip.1) other

mutual

/-- A JSON value; the fuel only bounds recursion depth and is chosen large
enough for the whole input at the top level. -/
def parseValue : Nat → List Char → Option (Json × List Char)
  | 0, _ => none
  | fuel + 1, cs =>
    match skipWs cs with
    | [] => none
    | c :: rest =>
      if c = 'n' then
        match rest with
        | 'u' :: 'l' :: 'l' :: rest2 => some (Json.null, rest2)
        | _ => none
      else if c = 't' then
        match rest with
        | 'r' :: 'u' :: 'e' :: rest2 => some (Json.bool true, rest2)
        | _ => none
      else if c = 'f' then
        match rest with
        | 'a' :: 'l' :: 's' :: 'e' :: rest2 => some (Json.bool false, rest2)
        | _ => none
      else if c = '"' then
        match parseStringBody [] rest with
        | some (s, rest2) => some (Json.str s, rest2)
        | none => none
      else if c = '[' then
        match skipWs rest with
        | ']' :: rest2 => some (Json.arr [], rest2)
        | _ => parseElems fuel rest []
      else if c = '\x7b' then
        match skipWs rest with
        | '\x7d' :: rest2 => some (Json.obj [], rest2)
        | _ => parseMembers fuel rest []
      else if c = '-' || c.isDigit then
        match parseNumberBody (c :: rest) with
        | some (rawNum, rest2) => some (Json.num rawNum, rest2)
        | none => none
      else none

/-- Comma-separated array elements up to the closing bracket. -/
def parseElems : Nat → List Char → List Json → Option (Json × List Char)
  | 0, _, _ => none
  | fuel + 1, cs, acc =>
    match parseValue fuel cs with
    | none => none
    | some (v, rest) =>
      match skipWs rest with
      | ',' :: rest2 => parseElems fuel rest2 (v :: acc)
      | ']' :: rest2 => some (Json.arr (v :: acc).reverse, rest2)
      | _ => none

/-- Comma-separated key-value members up to the closing brace. -/
def parseMembers : Nat → List Char → List (String × Json) → Option (Json × List Char)
  | 0, _, _ => none
  | fuel + 1, cs, acc =>
    match skipWs cs with
    | '"' :: rest =>
      match parseStringBody [] rest with
      | none => none
      | some (k, rest2) =>
        match skipWs rest2 with
        | ':' :: rest3 =>
          match parseValue fuel rest3 with
          | none => none
          | some (v, rest4) =>
            match skipWs rest4 with
            | ',' :: rest5 => parseMembers fuel rest5 ((k, v) :: acc)
            | '\x7d' :: rest5 => some (Json.obj ((k, v) :: acc).reverse, rest5)
            | _ => none
        | _ => none
    | _ => none

end

/-- JSON.parse: parse one value and require only whitespace after it;
none models a thrown SyntaxError. -/
def jsonParse (s : String) : Option Json :=
  match parseValue (2 * s.length + 4) s.toList with
  | some (v, rest) => if skipWs rest = [] then some v else none
  | none => none

/-- The userData useState initializer in src/App.tsx over the stored text:
a missing key (none) or a stored empty string (falsy) yields the empty object;
otherwise the result of JSON.parse is returned, and a parse failure is an
uncaught exception reaching the caller. -/
def loadUserData (stored : Option String) : Except String Json :=
  match stored with
  | none => Except.ok (Json.obj [])
  | some s =>
    if s = "" then Except.ok (Json.obj [])
    else
      match jsonParse s with
      | some v => Except.ok v
      | none => Except.error "SyntaxError: invalid JSON in storage"

/-- C1 counterexample: with the single character left brace stored, the text is
not parsable, and load throws the parse error instead of returning the empty
snapshot. -/
theorem load_corrupt_counterexample :
    loadUserData (some "\x7b") = Except.error "SyntaxError: invalid JSON in storage" := rfl

/-- C1 amended: load returns the empty snapshot when nothing (or the empty
string) is stored, but when the stored text does not parse as JSON, load
propagates the parse error to the caller instead of returning an empty
snapshot. -/
theorem load_missing_or_corrupt (s : String) (hs : s ≠ "") (hp : jsonParse s = none) :
    loadUserData none = Except.ok (Json.obj [])
    ∧ loadUserData (some "") = Except.ok (Json.obj [])
    ∧ loadUserData (some s) = Except.error "SyntaxError: invalid JSON in storage" := by
  refine ⟨rfl, rfl, ?_⟩
  simp [loadUserData, hs, hp]

theorem load_missing_or_corrupt_witness :
    loadUserData none = Except.ok (Json.obj [])
    ∧ loadUserData (some "") = Except.ok (Json.obj [])
    ∧ loadUserData (some "nope") = Except.error "SyntaxError: invalid JSON in storage" :=
  load_missing_or_corrupt "nope" (by decide) (by rfl)

/-! ## RetryableFetch (src/scripts/download-flags.mjs)

fetchJsonWithRetries and downloadWithRetries both run the loop
for attempt in 1..RETRIES: try the request, on failure remember the error and
sleep base * attempt, and after the loop throw the remembered error.  The
network is abstracted as a function from the attempt number to that attempt's
outcome; the run records the outcome, the number of attempts made and the
sleeps performed. -/

def RETRIES : Nat := 3

structure RetryResult (ε α : Type) where
  result : Except (Option ε) α
  attempts : Nat
  sleeps : List Nat

/-- Retry loop body: attempt numbers count up while the remaining-attempt
budget counts down.  The error side is an Option only because a zero-attempt
loop would rethrow the still-undefined lastError; with RETRIES = 3 the final
error is always the last attempt's error. -/
def retryGo (outcomes : Nat → Except ε α) (base : Nat) :
    Nat → Nat → Option ε → RetryResult ε α
  | _, 0, lastErr => ⟨Except.error lastErr, 0, []⟩
  | attempt, remaining + 1, _ =>
    match outcomes attempt with
    | Except.ok v => ⟨Except.ok v, 1, []⟩
    | Except.error e =>
      let t := retryGo outcomes base (attempt + 1) remaining (some e)
      ⟨t.result, t.attempts + 1, base * attempt :: t.sleeps⟩

def runRetries (outcomes : Nat → Except ε α) (base : Nat) : RetryResult ε α :=
  retryGo outcomes base 1 RETRIES none

/-- fetchJsonWithRetries: the retry loop with a 500 ms base delay. -/
def fetchJsonWithRetries (outcomes : Nat → Except ε α) : RetryResult ε α :=
  runRetries outcomes 500

/-- downloadWithRetries: the retry loop with a 400 ms base delay. -/
def downloadWithRetries (outcomes : Nat → Except ε α) : RetryResult ε α :=
  runRetries outcomes 400

theorem retryGo_zero (oc : Nat → Except ε α) (base a : Nat) (le : Option ε) :
    retryGo oc base a 0 le = ⟨Except.error le, 0, []⟩ := rfl

theorem retryGo_succ (oc : Nat → Except ε α) (base a r : Nat) (le : Option ε) :
    retryGo oc base a (r + 1) le =
      match oc a with
      | Except.ok v => ⟨Except.ok v, 1, []⟩
      | Except.error e =>
        let t := retryGo oc base (a + 1) r (some e)
        ⟨t.result, t.attempts + 1, base * a :: t.sleeps⟩ := rfl

/-- C8: both retrying primitives make at most 3 attempts, return the first
successful result, wait attempt * base between attempts (500 ms for the JSON
lookup, 400 ms for the byte download; the source also sleeps once more after
the final failed attempt before rethrowing), and after all 3 attempts fail
they surface the last attempt's error. -/
theorem retry_policy {α : Type} (oc : Nat → Except String α) :
    ((fetchJsonWithRetries oc).attempts ≤ 3 ∧ (downloadWithRetries oc).attempts ≤ 3)
    ∧ (∀ v, oc 1 = Except.ok v →
        fetchJsonWithRetries oc = ⟨Except.ok v, 1, []⟩
        ∧ downloadWithRetries oc = ⟨Except.ok v, 1, []⟩)
    ∧ (∀ e1 v, oc 1 = Except.error e1 → oc 2 = Except.ok v →
        fetchJsonWithRetries oc = ⟨Except.ok v, 2, [500]⟩
        ∧ downloadWithRetries oc = ⟨Except.ok v, 2, [400]⟩)
    ∧ (∀ e1 e2 v, oc 1 = Except.error e1 → oc 2 = Except.error e2 → oc 3 = Except.ok v →
        fetchJsonWithRetries oc = ⟨Except.ok v, 3, [500, 1000]⟩
        ∧ downloadWithRetries oc = ⟨Except.ok v, 3, [400, 800]⟩)
    ∧ (∀ e1 e2 e3, oc 1 = Except.error e1 → oc 2 = Except.error e2 → oc 3 = Except.error e3 →
        fetchJsonWithRetries oc = ⟨Except.error (some e3), 3, [500, 1000, 1500]⟩
        ∧ downloadWithRetries oc = ⟨Except.error (some e3), 3, [400, 800, 1200]⟩) := by
  refine ⟨?_, ?_, ?_, ?_, ?_⟩
  · rcases h1 : oc 1 with e1 | v1 <;> rcases h2 : oc 2 <;> rcases h3 : oc 3 <;>
      simp [fetchJsonWithRetries, downloadWithRetries, runRetries, RETRIES,
            retryGo_succ, retryGo_zero, h1, h2, h3]
  · intro v h1
    constructor <;>
      simp [fetchJsonWithRetries, downloadWithRetries, runRetries, RETRIES,
            retryGo_succ, retryGo_zero, h1]
  · intro e1 v h1 h2
    constructor <;>
      simp [fetchJsonWithRetries, downloadWithRetries, runRetries, RETRIES,
            retryGo_succ, retryGo_zero, h1, h2]
  · intro e1 e2 v h1 h2 h3
    constructor <;>
      simp [fetchJsonWithRetries, downloadWithRetries, runRetries, RETRIES,
            retryGo_succ, retryGo_zero, h1, h2, h3]
  · intro e1 e2 e3 h1 h2 h3
    constructor <;>
      simp [fetchJsonWithRetries, downloadWithRetries, runRetries, RETRIES,
            retryGo_succ, retryGo_zero, h1, h2, h3]

/-- Outcome oracle on which every attempt fails with a distinct error. -/
def ocAllFail : Nat → Except String Nat := fun k =>
  if k = 1 then Except.error "e1" else if k = 2 then Except.error "e2" else Except.error "e3"

theorem retry_policy_witness :
    fetchJsonWithRetries ocAllFail = ⟨Except.error (some "e3"), 3, [500, 1000, 1500]⟩
    ∧ downloadWithRetries ocAllFail = ⟨Except.error (some "e3"), 3, [400, 800, 1200]⟩ :=
  (retry_policy ocAllFail).2.2.2.2 "e1" "e2" "e3" rfl rfl rfl

/-- A retry run can only succeed with a value some attempt returned. -/
theorem retryGo_ok_exists (oc : Nat → Except ε α) (base : Nat) :
    ∀ (r a : Nat) (le : Option ε) (v : α),
      (retryGo oc base a r le).result = Except.ok v → ∃ k, oc k = Except.ok v := by
  intro r
  induction r with
  | zero =>
    intro a le v h
    rw [retryGo_zero] at h
    simp at h
  | succ n ih =>
    intro a le v h
    rw [retryGo_succ] at h
    rcases ho : oc a with e | w <;> rw [ho] at h <;> simp at h
    · exact ih (a + 1) (some e) v h
    · exact ⟨a, by rw [ho, h]⟩

/-- A retry run always makes at least one attempt. -/
theorem runRetries_attempts_pos (oc : Nat → Except ε α) (base : Nat) :
    0 < (runRetries oc base).attempts := by
  rcases h1 : oc 1 with e | v <;>
    simp [runRetries, RETRIES, retryGo_succ, h1]

/-- With every attempt failing, a retry run ends in an error. -/
theorem runRetries_error_of_all_error (oc : Nat → Except ε α) (base : Nat)
    (h : ∀ k, ∃ e, oc k = Except.error e) :
    ∃ e, (runRetries oc base).result = Except.error e := by
  rcases hr : (runRetries oc base).result with e | v
  · exact ⟨e, rfl⟩
  · obtain ⟨k, hk⟩ := retryGo_ok_exists oc base RETRIES 1 none v hr
    obtain ⟨e, he⟩ := h k
    rw [hk] at he
    exact absurd he (by simp)

/-! ## FlagFetcher (main and getFlagUrlByCode in src/scripts/download-flags.mjs)

The network and the file system are abstracted as an environment: for each
URL, the per-attempt outcome of the metadata fetch and of the byte download,
and for each path, whether the destination file exists.  A metadata response
is either a JSON array of country entries, or some other JSON value (iterating
a non-array with for-of throws, which is what the try/catch around
getFlagUrlByCode in main can catch).  The run result additionally counts the
network attempts of both phases, which the source performs but does not
count. -/

structure Flags where
  svg : Option String

structure RCEntry where
  cca2 : Option String
  flags : Option Flags

inductive JsonResp where
  | arr (items : List RCEntry) : JsonResp
  | nonArr : JsonResp

structure Env where
  metaOutcome : String → Nat → Except String JsonResp
  dlOutcome : String → Nat → Except String (List Nat)
  fileExists : String → Bool

/-- JS String.prototype.toUpperCase, per character (the codes are ASCII). -/
def jsToUpper (s : String) : String := String.mk (s.toList.map Char.toUpper)

/-- JS String.prototype.toLowerCase, per character (the codes are ASCII). -/
def jsToLower (s : String) : String := String.mk (s.toList.map Char.toLower)

/-- JS Map.prototype.set on an insertion-ordered association list. -/
def mapSet (m : List (String × String)) (k v : String) : List (String × String) :=
  if m.any (fun p => p.1 = k) then
    m.map (fun p => if p.1 = k then (k, v) else p)
  else m ++ [(k, v)]

/-- JS Map.prototype.get on an insertion-ordered association list. -/
def mapGet (m : List (String × String)) (k : String) : Option String :=
  (m.find? (fun p => p.1 = k)).map (fun p => p.2)

/-- Inner loop of getFlagUrlByCode: entries whose cca2 or flags.svg is missing
or empty (JS falsiness) are skipped, the rest set map[cca2.toUpperCase()]. -/
def applyItems (m : List (String × String)) : List RCEntry → List (String × String)
  | [] => m
  | item :: rest =>
    let code := (item.cca2).getD ""
    let svg := ((item.flags).bind (fun f => f.svg)).getD ""
    if code = "" || svg = "" then applyItems m rest
    else applyItems (mapSet m (jsToUpper code) svg) rest

/-- encodeURIComponent on a joined code list: uppercase ASCII letters pass
through unescaped and the comma separator becomes %2C. -/
def encodeCodesParam (s : String) : String :=
  String.join (s.toList.map (fun c => if c = ',' then "%2C" else String.mk [c]))

def RESTCOUNTRIES_ALPHA_URL : String := "https://restcountries.com/v3.1/alpha"

/-- Metadata URL for one chunk of codes. -/
def metaUrl (part : List String) : String :=
  RESTCOUNTRIES_ALPHA_URL ++ "?codes=" ++ encodeCodesParam (String.intercalate "," part)
    ++ "&fields=cca2,flags"

def CODES_PER_CHUNK : Nat := 25

/-- Partition into runs of CODES_PER_CHUNK.  Each step consumes 25 elements
but only one unit of fuel, so fuel = initial length never runs out; the fuel
only makes the recursion structural. -/
def chunkGo : Nat → List String → List (List String)
  | _, [] => []
  | 0, _ => []
  | fuel + 1, x :: xs =>
    ((x :: xs).take CODES_PER_CHUNK) :: chunkGo fuel ((x :: xs).drop CODES_PER_CHUNK)

def chunk (l : List String) : List (List String) := chunkGo l.length l

structure ResolveResult where
  result : Except String (List (String × String))
  attempts : Nat

/-- Chunk loop of getFlagUrlByCode: each chunk is fetched with
fetchJsonWithRetries; a chunk whose retries are exhausted is logged and
skipped (the codes of that chunk simply get no URL); a successful response
that is not an array makes the for-of loop throw, aborting the remaining
chunks. -/
def resolveChunks (env : Env) : List (List String) → List (String × String) → ResolveResult
  | [], m => ⟨Except.ok m, 0⟩
  | part :: rest, m =>
    let r := fetchJsonWithRetries (env.metaOutcome (metaUrl part))
    match r.result with
    | Except.error _ =>
      let t := resolveChunks env rest m
      ⟨t.result, r.attempts + t.attempts⟩
    | Except.ok (JsonResp.arr items) =>
      let t := resolveChunks env rest (applyItems m items)
      ⟨t.result, r.attempts + t.attempts⟩
    | Except.ok JsonResp.nonArr =>
      ⟨Except.error "TypeError: data is not iterable", r.attempts⟩

def getFlagUrlByCode (env : Env) (codes : List String) : ResolveResult :=
  resolveChunks env (chunk codes) []

def OUTPUT_DIR : String := "public/flags"

/-- Destination path of one code's flag file. -/
def outPath (code : String) : String := OUTPUT_DIR ++ "/" ++ jsToLower code ++ ".svg"

structure DlState where
  ok : Nat
  failed : Nat
  attempts : Nat
  failures : List String
  writes : List (String × List Nat)

/-- Per-code download loop of main: an existing destination file counts as
success with no network use; a code without a resolved URL counts as failure;
otherwise the bytes are downloaded with downloadWithRetries and written. -/
def downloadLoop (env : Env) (m : List (String × String)) : List String → DlState
  | [] => ⟨0, 0, 0, [], []⟩
  | code :: rest =>
    let t := downloadLoop env m rest
    if env.fileExists (outPath code) then
      ⟨t.ok + 1, t.failed, t.attempts, t.failures, t.writes⟩
    else
      match mapGet m code with
      | none => ⟨t.ok, t.failed + 1, t.attempts, code :: t.failures, t.writes⟩
      | some url =>
        let r := downloadWithRetries (env.dlOutcome url)
        match r.result with
        | Except.ok bytes =>
          ⟨t.ok + 1, t.failed, t.attempts + r.attempts, t.failures,
           (outPath code, bytes) :: t.writes⟩
        | Except.error _ =>
          ⟨t.ok, t.failed + 1, t.attempts + r.attempts, code :: t.failures, t.writes⟩

structure RunResult where
  aborted : Bool
  ok : Nat
  failed : Nat
  exitCode : Nat
  metaAttempts : Nat
  dlAttempts : Nat
  failures : List String
  writes : List (String × List Nat)

/-- main of download-flags.mjs over a code list and an environment: resolve
URLs in chunks; if the resolver threw, print the distinct diagnostic and exit
1 (aborted); otherwise walk the codes in order and exit 1 exactly when at
least one code failed. -/
def mainRun (env : Env) (codes : List String) : RunResult :=
  let r := getFlagUrlByCode env codes
  match r.result with
  | Except.error _ => ⟨true, 0, 0, 1, r.attempts, 0, [], []⟩
  | Except.ok m =>
    let d := downloadLoop env m codes
    ⟨false, d.ok, d.failed, if 0 < d.failed then 1 else 0, r.attempts, d.attempts,
     d.failures, d.writes⟩

/-- With every metadata attempt failing, every chunk is skipped and the
resolver returns the accumulator unchanged rather than throwing. -/
theorem resolveChunks_all_error (env : Env)
    (h : ∀ url k, ∃ e, env.metaOutcome url k = Except.error e) :
    ∀ (chunks : List (List String)) (m : List (String × String)),
      (resolveChunks env chunks m).result = Except.ok m := by
  intro chunks
  induction chunks with
  | nil => intro m; rfl
  | cons part rest ih =>
    intro m
    obtain ⟨e, he⟩ := runRetries_error_of_all_error (env.metaOutcome (metaUrl part)) 500
      (h (metaUrl part))
    simp only [resolveChunks, fetchJsonWithRetries] at *
    rw [he]
    simpa using ih m

/-- With an empty URL map and no destination file present, every code is a
per-code failure and no download attempt happens. -/
theorem downloadLoop_no_url (env : Env) (codes : List String)
    (h : ∀ c ∈ codes, env.fileExists (outPath c) = false) :
    downloadLoop env [] codes = ⟨0, codes.length, 0, codes, []⟩ := by
  induction codes with
  | nil => rfl
  | cons c rest ih =>
    have hc : env.fileExists (outPath c) = false := h c (by simp)
    have hr : ∀ x ∈ rest, env.fileExists (outPath x) = false := fun x hx => h x (by simp [hx])
    simp [downloadLoop, hc, ih hr, mapGet]

/-- With every destination file present, every code succeeds with no network
use and nothing written. -/
theorem downloadLoop_all_exist (env : Env) (m : List (String × String)) (codes : List String)
    (h : ∀ c ∈ codes, env.fileExists (outPath c) = true) :
    downloadLoop env m codes = ⟨codes.length, 0, 0, [], []⟩ := by
  induction codes with
  | nil => rfl
  | cons c rest ih =>
    have hc : env.fileExists (outPath c) = true := h c (by simp)
    have hr : ∀ x ∈ rest, env.fileExists (outPath x) = true := fun x hx => h x (by simp [hx])
    simp [downloadLoop, hc, ih hr]

/-- When no successful metadata response is a non-array, the resolver cannot
throw. -/
theorem resolveChunks_ok (env : Env)
    (h : ∀ url k, env.metaOutcome url k ≠ Except.ok JsonResp.nonArr) :
    ∀ (chunks : List (List String)) (m : List (String × String)),
      ∃ m2, (resolveChunks env chunks m).result = Except.ok m2 := by
  intro chunks
  induction chunks with
  | nil => intro m; exact ⟨m, rfl⟩
  | cons part rest ih =>
    intro m
    rcases hr : (fetchJsonWithRetries (env.metaOutcome (metaUrl part))).result with e | v
    · obtain ⟨m2, hm2⟩ := ih m
      exact ⟨m2, by simp [resolveChunks, hr, hm2]⟩
    · rcases v with items | nv
      · obtain ⟨m2, hm2⟩ := ih (applyItems m items)
        exact ⟨m2, by simp [resolveChunks, hr, hm2]⟩
      · exfalso
        obtain ⟨k, hk⟩ := retryGo_ok_exists (env.metaOutcome (metaUrl part)) 500 RETRIES 1 none
          JsonResp.nonArr hr
        exact h (metaUrl part) k hk

/-- Resolving a non-empty chunk list always makes at least one network
attempt. -/
theorem resolveChunks_attempts_pos (env : Env) (part : List String)
    (rest : List (List String)) (m : List (String × String)) :
    0 < (resolveChunks env (part :: rest) m).attempts := by
  have hp := runRetries_attempts_pos (env.metaOutcome (metaUrl part)) 500
  rcases hr : (fetchJsonWithRetries (env.metaOutcome (metaUrl part))).result with e | v
  · simp only [resolveChunks, fetchJsonWithRetries] at *
    rw [hr]
    simp
    omega
  · rcases v with items | nv <;> simp only [resolveChunks, fetchJsonWithRetries] at * <;>
      rw [hr] <;> simp <;> omega

/-- Environment in which every network request fails and no file exists. -/
def envC2 : Env :=
  ⟨fun _ _ => Except.error "fetch failed", fun _ _ => Except.error "fetch failed",
   fun _ => false⟩

/-- C2 counterexample: in envC2 every chunk lookup fails after retries, yet the
run is not aborted early: it proceeds to the download phase, reports the one
code as an individual per-code failure, and exits 1 through the per-code
failure count. -/
theorem c2_total_failure_counterexample :
    (mainRun envC2 ["US"]).aborted = false
    ∧ (mainRun envC2 ["US"]).failures = ["US"]
    ∧ (mainRun envC2 ["US"]).exitCode = 1 := ⟨rfl, rfl, rfl⟩

/-- C2 amended: when every chunk lookup fails after retries, getFlagUrlByCode
swallows each failure and returns an empty map, so the run proceeds to the
download phase, reports every code (none of whose files exist) as an
individual per-code failure and exits 1; the early-abort branch with its
distinct diagnostic does not fire. -/
theorem total_meta_failure_per_code (env : Env) (codes : List String)
    (hmeta : ∀ url k, ∃ e, env.metaOutcome url k = Except.error e)
    (hfiles : ∀ c ∈ codes, env.fileExists (outPath c) = false)
    (hne : codes ≠ []) :
    (mainRun env codes).aborted = false
    ∧ (mainRun env codes).failed = codes.length
    ∧ (mainRun env codes).failures = codes
    ∧ (mainRun env codes).exitCode = 1
    ∧ (mainRun env codes).dlAttempts = 0 := by
  have hres := resolveChunks_all_error env hmeta (chunk codes) []
  have hdl := downloadLoop_no_url env codes hfiles
  have hlen : 0 < codes.length := by
    cases codes with
    | nil => exact absurd rfl hne
    | cons a b => simp
  simp [mainRun, getFlagUrlByCode, hres, hdl, hlen]

theorem total_meta_failure_per_code_witness :
    (mainRun envC2 ["US"]).aborted = false
    ∧ (mainRun envC2 ["US"]).failed = (["US"] : List String).length
    ∧ (mainRun envC2 ["US"]).failures = ["US"]
    ∧ (mainRun envC2 ["US"]).exitCode = 1
    ∧ (mainRun envC2 ["US"]).dlAttempts = 0 :=
  total_meta_failure_per_code envC2 ["US"] (fun _ _ => ⟨"fetch failed", rfl⟩)
    (fun _ _ => rfl) (by decide)

/-- Environment in which every destination file exists and the metadata
endpoint answers with an empty array. -/
def envC3 : Env :=
  ⟨fun _ _ => Except.ok (JsonResp.arr []), fun _ _ => Except.error "unused", fun _ => true⟩

/-- C3 counterexample: with the single code's destination file present, the run
still performs a metadata network request (one attempt), refuting the claim of
zero network requests. -/
theorem c3_metadata_request_counterexample :
    envC3.fileExists (outPath "US") = true
    ∧ (mainRun envC3 ["US"]).metaAttempts = 1
    ∧ (mainRun envC3 ["US"]).ok = 1
    ∧ (mainRun envC3 ["US"]).exitCode = 0 := ⟨rfl, rfl, rfl, rfl⟩

/-- C3 amended: against a fully populated output directory (and a metadata
endpoint whose successful responses are arrays, so the resolver does not
throw), the run performs zero download requests, reports every code as
succeeded with exit code 0 — but it still performs the chunked metadata
lookups first, at least one network attempt when the code list is
non-empty. -/
theorem rerun_fully_populated (env : Env) (codes : List String)
    (hfiles : ∀ c ∈ codes, env.fileExists (outPath c) = true)
    (hmeta : ∀ url k, env.metaOutcome url k ≠ Except.ok JsonResp.nonArr) :
    (mainRun env codes).dlAttempts = 0
    ∧ (mainRun env codes).ok = codes.length
    ∧ (mainRun env codes).failed = 0
    ∧ (mainRun env codes).exitCode = 0
    ∧ (codes ≠ [] → (mainRun env codes).metaAttempts ≠ 0) := by
  obtain ⟨m2, hm2⟩ := resolveChunks_ok env hmeta (chunk codes) []
  have hdl := downloadLoop_all_exist env m2 codes hfiles
  refine ⟨by simp [mainRun, getFlagUrlByCode, hm2, hdl],
          by simp [mainRun, getFlagUrlByCode, hm2, hdl],
          by simp [mainRun, getFlagUrlByCode, hm2, hdl],
          by simp [mainRun, getFlagUrlByCode, hm2, hdl], ?_⟩
  intro hne
  have hatt : (mainRun env codes).metaAttempts
      = (resolveChunks env (chunk codes) []).attempts := by
    simp [mainRun, getFlagUrlByCode, hm2, hdl]
  rw [hatt]
  cases codes with
  | nil => exact absurd rfl hne
  | cons a b =>
    have hch : chunk (a :: b) =
        ((a :: b).take CODES_PER_CHUNK) :: chunkGo b.length ((a :: b).drop CODES_PER_CHUNK) := rfl
    rw [hch]
    have := resolveChunks_attempts_pos env ((a :: b).take CODES_PER_CHUNK)
      (chunkGo b.length ((a :: b).drop CODES_PER_CHUNK)) []
    omega

theorem rerun_fully_populated_witness :
    (mainRun envC3 ["US"]).dlAttempts = 0
    ∧ (mainRun envC3 ["US"]).ok = 1
    ∧ (mainRun envC3 ["US"]).failed = 0
    ∧ (mainRun envC3 ["US"]).exitCode = 0
    ∧ (mainRun envC3 ["US"]).metaAttempts ≠ 0 := by
  have h := rerun_fully_populated envC3 ["US"] (fun _ _ => rfl)
    (fun _ _ hx => by simp [envC3] at hx)
  exact ⟨h.1, h.2.1, h.2.2.1, h.2.2.2.1, h.2.2.2.2 (by decide)⟩

end Lerakaif
